import Mathlib

/-!
Shallow embedding of the Personalized Problem Annotation & Recommendation
subsystem of the online-judge backend (src/problem/views/oj.py), together
with proofs of its specified properties.

Python dicts are embedded as insertion-ordered association lists
`List (String × α)`; dict `d[k]` lookup is `List.lookup k d` (first match),
`d.get(k, default)` is `(List.lookup k d).getD default`, and assignment
`d[k] = v` is `dictSet` (update in place for an existing key, append for a
new one), matching Python 3 dict ordering semantics.
-/

/-- `ProblemRuleType` from problem.models: a problem is judged ACM- or OI-style. -/
inductive RuleType where
  | ACM : RuleType
  | OI : RuleType
deriving DecidableEq, Repr

/-- `ContestRuleType` from contest.models. -/
inductive ContestRuleType where
  | ACM : ContestRuleType
  | OI : ContestRuleType
deriving DecidableEq, Repr

/-- Modelled from the spec: the `JudgeStatus.ACCEPTED` constant
(submission.models is not under src/). Progress-record statuses are small
integer codes; the concrete value is irrelevant to every claim, only
equality with it is tested. -/
def JudgeStatusACCEPTED : Int := 0

/-- One entry of a progress dict: the per-problem record
`\x7b"status": ..., "_id": ...\x7d` stored in the profile JSON. -/
structure ProgressRecord where
  status : Int
  _id : String
deriving DecidableEq, Repr

/-- A profile progress JSON blob (`acm_problems_status` or
`oi_problems_status`): a dict that may or may not contain the `"problems"`
and `"contest_problems"` namespaces. `none` models an absent key, read with
`.get(key, \x7b\x7d)` in the source. -/
structure StatusBlob where
  problems : Option (List (String × ProgressRecord))
  contest_problems : Option (List (String × ProgressRecord))
deriving DecidableEq, Repr

/-- The fields of `account.models.UserProfile` this subsystem reads. -/
structure UserProfileData where
  acm_problems_status : StatusBlob
  oi_problems_status : StatusBlob
  field_score : List (String × Int)
deriving DecidableEq, Repr

/-- A serialized problem row as the annotator sees it: `id`, `rule_type`
and the mutable output field `my_status` (null by default). -/
structure ProblemView where
  id : Nat
  rule_type : RuleType
  my_status : Option Int
deriving DecidableEq, Repr

/-- `queryset_values.get(str(problem["id"]), \x7b\x7d).get("status")` on a
progress namespace: `none` when the id is absent, otherwise the record's
status. -/
def dictStatusGet (ns : List (String × ProgressRecord)) (key : String) : Option Int :=
  (List.lookup key ns).map ProgressRecord.status

/-- Python `d[k] = v` on an insertion-ordered dict: update in place when the
key exists, append otherwise. -/
def dictSet (l : List (String × Int)) (k : String) (v : Int) : List (String × Int) :=
  if l.any (fun p => p.1 == k) then
    l.map (fun p => if p.1 == k then (k, v) else p)
  else
    l ++ [(k, v)]

/-- The argument of `ProblemAPI._add_problem_status`: either a single
serialized problem or a paginated dict with a `"results"` list. The source
duck-types on the presence of the `"results"` key; a single problem dict
never has one, so this tagged union is the faithful shape. -/
inductive QuerysetValues where
  | single : ProblemView → QuerysetValues
  | page : List ProblemView → QuerysetValues
deriving DecidableEq, Repr

/-- `results = queryset_values.get("results"); problems = results if results
is not None else [queryset_values]`. -/
def normalizeCollection : QuerysetValues → List ProblemView
  | QuerysetValues.single p => [p]
  | QuerysetValues.page rs => rs

/-- The per-problem body of the loop in `ProblemAPI._add_problem_status`:
ACM problems read the global ACM namespace, all others the global OI one. -/
def annotateOne (acm oi : List (String × ProgressRecord)) (p : ProblemView) : ProblemView :=
  if p.rule_type = RuleType.ACM then
    { p with my_status := dictStatusGet acm (toString p.id) }
  else
    { p with my_status := dictStatusGet oi (toString p.id) }

namespace ProblemAPI

/-- `ProblemAPI._add_problem_status(request, queryset_values)`: no-op for an
unauthenticated request; otherwise normalize the collection and set each
problem's `my_status` from the global namespace matching its own rule type. -/
def addProblemStatus (authenticated : Bool) (prof : UserProfileData)
    (qv : QuerysetValues) : QuerysetValues :=
  if authenticated then
    let acm := prof.acm_problems_status.problems.getD []
    let oi := prof.oi_problems_status.problems.getD []
    match qv with
    | QuerysetValues.single p => QuerysetValues.single (annotateOne acm oi p)
    | QuerysetValues.page rs => QuerysetValues.page (rs.map (annotateOne acm oi))
  else qv

end ProblemAPI

/-- The contest-scope namespace chosen by `ContestProblemAPI._add_problem_status`:
it is selected once per call from the CONTEST's rule type. -/
def contestNamespace (prof : UserProfileData) : ContestRuleType → List (String × ProgressRecord)
  | ContestRuleType.ACM => prof.acm_problems_status.contest_problems.getD []
  | ContestRuleType.OI => prof.oi_problems_status.contest_problems.getD []

namespace ContestProblemAPI

/-- `ContestProblemAPI._add_problem_status(self, request, queryset_values)`:
no-op for an unauthenticated request; otherwise every problem of the list is
annotated from the single namespace chosen by `self.contest.rule_type`. -/
def addProblemStatus (authenticated : Bool) (contestRule : ContestRuleType)
    (prof : UserProfileData) (problems : List ProblemView) : List ProblemView :=
  if authenticated then
    let ns := contestNamespace prof contestRule
    problems.map (fun p => { p with my_status := dictStatusGet ns (toString p.id) })
  else problems

end ContestProblemAPI

/-- The `my_status` column of a collection, in order. -/
def collectionStatuses (qv : QuerysetValues) : List (Option Int) :=
  (normalizeCollection qv).map ProblemView.my_status

/-! ## The AI recommender (`AIRecommendProblemAPI.get`) -/

/-- Modelled from the spec: the score cap `ProblemScore.score["VeryHigh"] * 20`
(utils.constants is not under src/). The per-tier maximum `VeryHigh` is a
parameter; the cap is that maximum times the constant tier count 20. -/
def scoreCap (veryHigh : Int) : Int := veryHigh * 20

/-- A problem row as the recommender's queryset sees it. `contest_id` is
`none` for a catalog problem and `some c` for a problem attached to contest
`c`; `field` is the subject-field identifier; `_id` the display id. -/
structure Problem where
  _id : String
  id : Nat
  field : String
  visible : Bool
  contest_id : Option Nat
deriving DecidableEq, Repr

/-- `get_user_solved_problems(user)`: the `_id`s of the entries of the
global ACM `"problems"` namespace whose status is ACCEPTED. -/
def getUserSolvedProblems (prof : UserProfileData) : List String :=
  (prof.acm_problems_status.problems.getD []).filterMap
    (fun kv => if kv.2.status = JudgeStatusACCEPTED then some kv.2._id else none)

/-- The running state of the weak-field loop: the dict as capped so far
(the loop writes `field_score[k] = min(v, field_score["max_score"])` in
place, preserving key order), the current weak-field candidate and its
score. -/
structure ScanState where
  capped : List (String × Int)
  weakField : String
  weakScore : Int
deriving DecidableEq, Repr

/-- One iteration of the loop over `field_score.items()`: cap the entry,
then take it as the new candidate exactly when its capped score is strictly
below the running minimum. -/
def scanStep (cap : Int) (st : ScanState) (kv : String × Int) : ScanState :=
  if min kv.2 cap < st.weakScore then
    { capped := st.capped ++ [(kv.1, min kv.2 cap)], weakField := kv.1,
      weakScore := min kv.2 cap }
  else
    { capped := st.capped ++ [(kv.1, min kv.2 cap)], weakField := st.weakField,
      weakScore := st.weakScore }

/-- The whole loop: `weak_field_score = field_score["0"]` (a KeyError —
hence `none` — when `"0"` is absent), then fold over the insertion-ordered
entries. The initial candidate is field `"0"` at its RAW score. (The source
initializes `weak_field = 0` with the int 0; the downstream
`filter(field=weak_field)` coerces it to the same column value as the
string `"0"`, so the candidate is embedded as the string.) -/
def weakFieldScan (cap : Int) (fs : List (String × Int)) : Option ScanState :=
  (List.lookup "0" fs).map
    (fun v0 => fs.foldl (scanStep cap) { capped := [], weakField := "0", weakScore := v0 })

/-- Lines 149-158 of the view: insert `field_score["max_score"] = cap`,
then run the capping/weak-field loop over the resulting dict. -/
def recommendFieldScore (fs : List (String × Int)) (cap : Int) : Option ScanState :=
  weakFieldScan cap (dictSet fs "max_score" cap)

/-- `Problem.objects.filter(field=weak_field, visible=True).exclude(_id__in=solved)`:
note there is NO `contest_id__isnull=True` condition on this queryset. -/
def unresolvedPool (catalog : List Problem) (weakField : String)
    (solved : List String) : List Problem :=
  (catalog.filter (fun p => p.field == weakField && p.visible)).filter
    (fun p => !(solved.contains p._id))

/-- What `random.sample(population, k)` guarantees when `k ≤ |population|`:
exactly `k` elements, drawn without replacement (the result is a
sub-permutation of the population). The sampler itself is an input of the
embedding; any function satisfying this models the host library call. -/
def SamplerSpec (sample : List Problem → Nat → List Problem) : Prop :=
  ∀ (l : List Problem) (k : Nat), k ≤ l.length →
    (sample l k).length = k ∧ (sample l k).Subperm l

/-- The body of the HTTP response: the 404 branch of the
`UserProfile.DoesNotExist` handler, or the success payload
`\x7b"field_score": ..., "recommend_problems": ...\x7d`. -/
inductive RecommendResponse where
  | success : List (String × Int) → List Problem → RecommendResponse
  | notFound : RecommendResponse
deriving DecidableEq, Repr

/-- Lines 160-166 of the view, given the scan outcome `st`: compute the
solved-id list, the unresolved pool for the weak field, draw
`min(3, |pool|)` problems and assemble the success payload. -/
def recommendSuccess (prof : UserProfileData) (catalog : List Problem)
    (sample : List Problem → Nat → List Problem) (st : ScanState) : RecommendResponse :=
  let solved := getUserSolvedProblems prof
  let pool := unresolvedPool catalog st.weakField solved
  let picked := sample pool (min 3 pool.length)
  RecommendResponse.success st.capped picked

/-- `AIRecommendProblemAPI.get`. `profile` is the result of
`UserProfile.objects.get(user=request.user)` (`none` when the row is
absent, raising `DoesNotExist`, caught and mapped to the 404). The outer
`Option` is `none` exactly when the uncaught `KeyError` on
`field_score["0"]` escapes (no response is produced). `sample` stands for
`random.sample`, `veryHigh` for `ProblemScore.score["VeryHigh"]`. -/
def aiRecommendGet (profile : Option UserProfileData) (catalog : List Problem)
    (sample : List Problem → Nat → List Problem) (veryHigh : Int) :
    Option RecommendResponse :=
  match profile with
  | none => some RecommendResponse.notFound
  | some prof =>
    (recommendFieldScore prof.field_score (scoreCap veryHigh)).map
      (recommendSuccess prof catalog sample)

/-! ## Association-list lemmas -/

lemma lookup_append_left_none {α : Type} (k : String) (l1 l2 : List (String × α))
    (h : k ∉ l1.map Prod.fst) :
    List.lookup k (l1 ++ l2) = List.lookup k l2 := by
  induction l1 with
  | nil => rfl
  | cons e t ih =>
    obtain ⟨a, b⟩ := e
    simp only [List.map_cons, List.mem_cons, not_or] at h
    have hk : (k == a) = false := beq_false_of_ne h.1
    simp only [List.cons_append, List.lookup, hk]
    exact ih h.2

lemma lookup_of_mem_nodup {α : Type} (k : String) (v : α) (l : List (String × α))
    (hnd : (l.map Prod.fst).Nodup) (hmem : (k, v) ∈ l) :
    List.lookup k l = some v := by
  induction l with
  | nil => simp at hmem
  | cons e t ih =>
    obtain ⟨a, b⟩ := e
    simp only [List.map_cons, List.nodup_cons] at hnd
    rcases List.mem_cons.mp hmem with h | h
    · injection h with h1 h2
      subst h1
      subst h2
      simp [List.lookup]
    · have hne : k ≠ a := by
        intro hk
        subst hk
        exact hnd.1 (List.mem_map_of_mem Prod.fst h)
      have hk : (k == a) = false := beq_false_of_ne hne
      simp only [List.lookup, hk]
      exact ih hnd.2 h

lemma lookup_isSome_of_mem_keys {α : Type} (k : String) (l : List (String × α))
    (h : k ∈ l.map Prod.fst) : (List.lookup k l).isSome := by
  induction l with
  | nil => simp at h
  | cons e t ih =>
    obtain ⟨a, b⟩ := e
    simp only [List.map_cons, List.mem_cons] at h
    by_cases hk : k = a
    · subst hk
      simp [List.lookup]
    · have hkf : (k == a) = false := beq_false_of_ne hk
      simp only [List.lookup, hkf]
      exact ih (h.resolve_left hk)

lemma dictSet_of_not_mem (l : List (String × Int)) (k : String) (v : Int)
    (h : k ∉ l.map Prod.fst) : dictSet l k v = l ++ [(k, v)] := by
  have hany : l.any (fun p => p.1 == k) = false := by
    rw [List.any_eq_false]
    intro p hp
    simp only [beq_iff_eq]
    intro hpk
    exact h (hpk ▸ List.mem_map_of_mem Prod.fst hp)
  simp [dictSet, hany]

/-! ## Lemmas about the weak-field scan -/

lemma scan_capped (cap : Int) (l : List (String × Int)) (st : ScanState) :
    (l.foldl (scanStep cap) st).capped
      = st.capped ++ l.map (fun kv => (kv.1, min kv.2 cap)) := by
  induction l generalizing st with
  | nil => simp
  | cons kv t ih =>
    rw [List.foldl_cons, ih]
    have hstep : (scanStep cap st kv).capped = st.capped ++ [(kv.1, min kv.2 cap)] := by
      rw [scanStep]
      split <;> rfl
    rw [hstep]
    simp

lemma scanStep_weakScore_le (cap : Int) (st : ScanState) (kv : String × Int) :
    (scanStep cap st kv).weakScore ≤ min kv.2 cap := by
  unfold scanStep
  split
  · simp
  · rename_i hlt
    simpa using le_of_not_lt hlt

lemma scan_weakScore_mono (cap : Int) (l : List (String × Int)) (st : ScanState) :
    (l.foldl (scanStep cap) st).weakScore ≤ st.weakScore := by
  induction l generalizing st with
  | nil => simp
  | cons kv t ih =>
    rw [List.foldl_cons]
    refine le_trans (ih _) ?_
    unfold scanStep
    split
    · rename_i hlt
      exact le_of_lt hlt
    · exact le_refl _

lemma scan_weakField_mem (cap : Int) (l : List (String × Int)) (st : ScanState) :
    (l.foldl (scanStep cap) st).weakField = st.weakField
      ∨ (l.foldl (scanStep cap) st).weakField ∈ l.map Prod.fst := by
  induction l generalizing st with
  | nil => simp
  | cons kv t ih =>
    rw [List.foldl_cons]
    rcases ih (scanStep cap st kv) with h | h
    · rw [h]
      unfold scanStep
      split
      · right
        simp
      · left
        rfl
    · right
      simp only [List.map_cons, List.mem_cons]
      exact Or.inr h

/-- The global-scope namespace a problem's own rule type selects in
`ProblemAPI._add_problem_status`. -/
def globalNamespace (prof : UserProfileData) : RuleType → List (String × ProgressRecord)
  | RuleType.ACM => prof.acm_problems_status.problems.getD []
  | RuleType.OI => prof.oi_problems_status.problems.getD []

/-- C5: on a global problem listing, an unauthenticated request leaves the
collection (hence every `my_status`) untouched; an authenticated one sets
each problem's `my_status` to the status of the record at its stringified
id in the namespace selected by its own rule type, and to null when the id
is absent (lookups are total, so no error can be raised). -/
theorem annotate_my_status_spec (prof : UserProfileData) (qv : QuerysetValues) :
    ProblemAPI.addProblemStatus false prof qv = qv
    ∧ collectionStatuses (ProblemAPI.addProblemStatus true prof qv)
        = (normalizeCollection qv).map
            (fun p => (List.lookup (toString p.id) (globalNamespace prof p.rule_type)).map
              ProgressRecord.status) := by
  constructor
  · simp [ProblemAPI.addProblemStatus]
  · cases qv with
    | single p =>
      cases hrt : p.rule_type <;>
        simp [ProblemAPI.addProblemStatus, collectionStatuses, normalizeCollection,
          annotateOne, dictStatusGet, globalNamespace, hrt]
    | page rs =>
      simp only [ProblemAPI.addProblemStatus, collectionStatuses, normalizeCollection,
        if_pos, List.map_map]
      refine List.map_congr_left ?_
      intro p _
      cases hrt : p.rule_type <;>
        simp [annotateOne, dictStatusGet, globalNamespace, hrt, Function.comp]

/-- C9: a single `ProblemView` and a one-element page are normalized to the
same one-element sequence and annotated by the same logic, so annotating
either shape yields identical `my_status` results. -/
theorem annotate_shape_invariance (authenticated : Bool) (prof : UserProfileData)
    (v : ProblemView) :
    normalizeCollection (QuerysetValues.single v)
        = normalizeCollection (QuerysetValues.page [v])
    ∧ collectionStatuses
          (ProblemAPI.addProblemStatus authenticated prof (QuerysetValues.single v))
        = collectionStatuses
          (ProblemAPI.addProblemStatus authenticated prof (QuerysetValues.page [v])) := by
  constructor
  · rfl
  · cases authenticated <;>
      simp [ProblemAPI.addProblemStatus, collectionStatuses, normalizeCollection]

/-- A profile whose ACM contest namespace records status 2 for problem id
"1" while its OI contest namespace records status 1 for the same id. -/
def mixedContestProfile : UserProfileData where
  acm_problems_status :=
    { problems := none, contest_problems := some [("1", { status := 2, _id := "P1" })] }
  oi_problems_status :=
    { problems := none, contest_problems := some [("1", { status := 1, _id := "P1" })] }
  field_score := []

/-- An ACM-rule problem view with id 1 and unset status. -/
def acmProblemOne : ProblemView where
  id := 1
  rule_type := RuleType.ACM
  my_status := none

/-- C1, counterexample: an authenticated contest listing under an OI-rule
contest containing an ACM-rule problem. The claim says the ACM problem
reads the ACM contest namespace (whose record for id "1" has status 2);
the code annotates it from the OI contest namespace instead (status 1). -/
theorem contest_namespace_per_problem_cex :
    (ContestProblemAPI.addProblemStatus true ContestRuleType.OI mixedContestProfile
        [acmProblemOne]).map ProblemView.my_status = [some 1]
    ∧ dictStatusGet
        (mixedContestProfile.acm_problems_status.contest_problems.getD []) "1" = some 2
    ∧ (ContestProblemAPI.addProblemStatus true ContestRuleType.OI mixedContestProfile
        [acmProblemOne]).map ProblemView.my_status ≠ [some 2] := by
  refine ⟨by decide, by decide, by decide⟩

/-- C1, amended: on an authenticated contest problem listing the progress
namespace is selected once per call from the CONTEST's rule type (ACM
contests read the ACM contest namespace, OI contests the OI one) for every
problem of the listing; each problem's own `rule_type` has no influence on
its annotation (rewriting every problem's rule type arbitrarily leaves all
`my_status` values unchanged). -/
theorem contest_namespace_from_contest_rule
    (rule : ContestRuleType) (prof : UserProfileData) (ps : List ProblemView) :
    (ContestProblemAPI.addProblemStatus true rule prof ps).map ProblemView.my_status
      = ps.map (fun p => (List.lookup (toString p.id) (contestNamespace prof rule)).map
          ProgressRecord.status)
    ∧ ∀ f : RuleType → RuleType,
        (ContestProblemAPI.addProblemStatus true rule prof
            (ps.map (fun p => { p with rule_type := f p.rule_type }))).map
          ProblemView.my_status
          = (ContestProblemAPI.addProblemStatus true rule prof ps).map
            ProblemView.my_status := by
  constructor
  · simp [ContestProblemAPI.addProblemStatus, dictStatusGet, List.map_map, Function.comp]
  · intro f
    simp [ContestProblemAPI.addProblemStatus, List.map_map, Function.comp]

/-- One step of weak-field selection as the SPEC words it: every field
competes at its capped value `min raw cap`, and the candidate (field id,
capped score) is replaced only on a strictly smaller capped score. -/
def specStep (cap : Int) (st : String × Int) (kv : String × Int) : String × Int :=
  if min kv.2 cap < st.2 then (kv.1, min kv.2 cap) else st

/-- Weak-field selection exactly as the spec/claim describes it (the
reference definition a refinement is checked against, NOT derived from the
source): scan the fields of the raw vector in their fixed order, starting
from field "0" (raw score `v0`) as the initial candidate, each field
compared at its capped value, ties keeping the earliest candidate. -/
def specWeakField (cap v0 : Int) (fs : List (String × Int)) : String :=
  (fs.foldl (specStep cap) ("0", min v0 cap)).1

/-- The candidate components of the source's scan state evolve exactly by
`specStep`. -/
lemma scan_proj (cap : Int) (l : List (String × Int)) (st : ScanState) :
    ((l.foldl (scanStep cap) st).weakField, (l.foldl (scanStep cap) st).weakScore)
      = l.foldl (specStep cap) (st.weakField, st.weakScore) := by
  induction l generalizing st with
  | nil => rfl
  | cons kv t ih =>
    rw [List.foldl_cons, List.foldl_cons, ih]
    by_cases h : min kv.2 cap < st.weakScore <;> simp [scanStep, specStep, h]

/-- The source's first scan step over the entry `("0", v0)` lands on the
candidate `("0", min v0 cap)`, the spec's initial candidate. -/
lemma scan_first_step (cap v0 : Int) :
    (((scanStep cap { capped := [], weakField := "0", weakScore := v0 } ("0", v0)).weakField),
      ((scanStep cap { capped := [], weakField := "0", weakScore := v0 } ("0", v0)).weakScore))
      = ("0", min v0 cap) := by
  rw [scanStep]
  split
  · rfl
  · rename_i hnot
    have hv : min v0 cap = v0 := le_antisymm (min_le_left _ _) (le_of_not_lt (by simpa using hnot))
    simp [hv]

/-- C3: for a raw vector whose iteration order starts at field "0" (and
which does not already contain the reserved key "max_score"), the weak
field the source's loop selects equals the one the spec's algorithm
selects: fields compared at capped values `min raw cap`, candidate updated
only on strictly smaller score (so ties keep the earliest field, and a
field whose raw score exceeds the cap competes at the cap). Both sides are
plain functions of the vector and the cap, so selection is deterministic. -/
theorem weak_field_selection_matches_spec (cap v0 : Int) (rest : List (String × Int))
    (hmax : "max_score" ∉ ((("0", v0) :: rest).map Prod.fst)) (st : ScanState)
    (hscan : recommendFieldScore (("0", v0) :: rest) cap = some st) :
    st.weakField = specWeakField cap v0 (("0", v0) :: rest) := by
  rw [recommendFieldScore, dictSet_of_not_mem _ _ _ hmax, weakFieldScan] at hscan
  have hlk : List.lookup "0" ((("0", v0) :: rest) ++ [("max_score", cap)]) = some v0 := by
    simp [List.lookup]
  rw [hlk, Option.map_some'] at hscan
  have hfold := Option.some.inj hscan
  have hsplit : ((("0", v0) :: rest) ++ [("max_score", cap)]).foldl (scanStep cap)
        { capped := [], weakField := "0", weakScore := v0 }
      = scanStep cap
          (rest.foldl (scanStep cap)
            (scanStep cap { capped := [], weakField := "0", weakScore := v0 } ("0", v0)))
          ("max_score", cap) := by
    rw [List.cons_append, List.foldl_cons, List.foldl_append]
    rfl
  have hproj := scan_proj cap rest
    (scanStep cap { capped := [], weakField := "0", weakScore := v0 } ("0", v0))
  rw [scan_first_step] at hproj
  have hwsInit : (scanStep cap { capped := [], weakField := "0", weakScore := v0 }
      ("0", v0)).weakScore ≤ cap := by
    have := scan_first_step cap v0
    have hsnd := congrArg Prod.snd this
    simp only at hsnd
    rw [hsnd]
    exact min_le_right _ _
  have hwsR : (rest.foldl (scanStep cap)
      (scanStep cap { capped := [], weakField := "0", weakScore := v0 } ("0", v0))).weakScore
      ≤ cap :=
    le_trans (scan_weakScore_mono cap rest _) hwsInit
  have hfinal : (scanStep cap
      (rest.foldl (scanStep cap)
        (scanStep cap { capped := [], weakField := "0", weakScore := v0 } ("0", v0)))
      ("max_score", cap)).weakField
      = (rest.foldl (scanStep cap)
        (scanStep cap { capped := [], weakField := "0", weakScore := v0 } ("0", v0))).weakField := by
    rw [scanStep]
    split
    · rename_i hlt
      exact absurd (lt_of_le_of_lt hwsR (by simpa using hlt)) (lt_irrefl _)
    · rfl
  have hspec : specWeakField cap v0 (("0", v0) :: rest)
      = (rest.foldl (specStep cap) ("0", min v0 cap)).1 := by
    rw [specWeakField, List.foldl_cons]
    congr 1
    rw [specStep]
    split
    · rename_i hcon
      exact absurd hcon (by simp)
    · rfl
  rw [← hfold, hsplit, hfinal, hspec]
  exact congrArg Prod.fst hproj

/-- Witness for C3 at the tie vector of the spec: fields "0" and "2" both
at capped score 5 under cap 100, field "1" higher; the selected field is
"0" on both the source side and the spec side. -/
theorem weak_field_selection_matches_spec_witness :
    specWeakField 100 5 [("0", 5), ("1", 9), ("2", 5)] = "0"
    ∧ ScanState.weakField
        { capped := [("0", 5), ("1", 9), ("2", 5), ("max_score", 100)],
          weakField := "0", weakScore := 5 }
      = specWeakField 100 5 [("0", 5), ("1", 9), ("2", 5)] :=
  ⟨by decide,
    weak_field_selection_matches_spec 100 5 [("1", 9), ("2", 5)] (by decide)
      { capped := [("0", 5), ("1", 9), ("2", 5), ("max_score", 100)],
        weakField := "0", weakScore := 5 }
      (by decide)⟩

/-- `k ∈ keys l` survives a dict assignment `dictSet l k' v`. -/
lemma mem_keys_dictSet (l : List (String × Int)) (k' : String) (v : Int) (k : String)
    (h : k ∈ l.map Prod.fst) : k ∈ (dictSet l k' v).map Prod.fst := by
  rw [dictSet]
  split
  · obtain ⟨p, hp, hpk⟩ := List.mem_map.mp h
    by_cases hkk : p.1 = k'
    · refine List.mem_map.mpr ⟨(k', v), List.mem_map.mpr ⟨p, hp, ?_⟩, ?_⟩
      · simp [hkk]
      · rw [← hpk, hkk]
    · refine List.mem_map.mpr ⟨p, List.mem_map.mpr ⟨p, hp, ?_⟩, hpk⟩
      simp [beq_false_of_ne hkk]
  · rw [List.map_append]
    exact List.mem_append_left _ h

/-- Inversion of a success response: it comes from a successful scan, and
the payload is exactly the sampled unresolved pool of the weak field. -/
lemma aiRecommendGet_success_inv (prof : UserProfileData) (catalog : List Problem)
    (sample : List Problem → Nat → List Problem) (veryHigh : Int)
    (fsOut : List (String × Int)) (picked : List Problem)
    (hget : aiRecommendGet (some prof) catalog sample veryHigh
      = some (RecommendResponse.success fsOut picked)) :
    ∃ st : ScanState,
      recommendFieldScore prof.field_score (scoreCap veryHigh) = some st
      ∧ fsOut = st.capped
      ∧ picked = sample (unresolvedPool catalog st.weakField (getUserSolvedProblems prof))
          (min 3 (unresolvedPool catalog st.weakField (getUserSolvedProblems prof)).length) := by
  have hget' : (recommendFieldScore prof.field_score (scoreCap veryHigh)).map
      (recommendSuccess prof catalog sample)
      = some (RecommendResponse.success fsOut picked) := hget
  obtain ⟨st, hst, hsucc⟩ := Option.map_eq_some'.mp hget'
  have hsucc' : RecommendResponse.success st.capped
      (sample (unresolvedPool catalog st.weakField (getUserSolvedProblems prof))
        (min 3 (unresolvedPool catalog st.weakField (getUserSolvedProblems prof)).length))
      = RecommendResponse.success fsOut picked := hsucc
  rw [RecommendResponse.success.injEq] at hsucc'
  exact ⟨st, hst, hsucc'.1.symm, hsucc'.2.symm⟩

/-- `fun l k => l.take k` is one concrete sampler satisfying `SamplerSpec`
(used to instantiate the sampler in the witnesses). -/
lemma take_sampler_spec : SamplerSpec (fun l k => l.take k) := by
  intro l k hk
  constructor
  · simpa using Nat.min_eq_left hk
  · exact (List.take_sublist k l).subperm

/-- C6: with no profile row the view returns the 404 (`notFound`) and
nothing else; with a profile whose score vector contains the baseline
field "0" (as the data model prescribes), the view always produces a
normal success response — never the 404, never an escaped exception. -/
theorem recommend_error_kinds (catalog : List Problem)
    (sample : List Problem → Nat → List Problem) (veryHigh : Int) :
    aiRecommendGet none catalog sample veryHigh = some RecommendResponse.notFound
    ∧ ∀ prof : UserProfileData, "0" ∈ prof.field_score.map Prod.fst →
        (aiRecommendGet (some prof) catalog sample veryHigh).isSome = true
        ∧ aiRecommendGet (some prof) catalog sample veryHigh
            ≠ some RecommendResponse.notFound := by
  constructor
  · rfl
  · intro prof h0
    have h0' : "0" ∈ (dictSet prof.field_score "max_score" (scoreCap veryHigh)).map Prod.fst :=
      mem_keys_dictSet _ _ _ _ h0
    have hsome := lookup_isSome_of_mem_keys _ _ h0'
    obtain ⟨v0, hv0⟩ := Option.isSome_iff_exists.mp hsome
    have hget : aiRecommendGet (some prof) catalog sample veryHigh
        = some (recommendSuccess prof catalog sample
            ((dictSet prof.field_score "max_score" (scoreCap veryHigh)).foldl
              (scanStep (scoreCap veryHigh))
              { capped := [], weakField := "0", weakScore := v0 })) := by
      show (recommendFieldScore prof.field_score (scoreCap veryHigh)).map
        (recommendSuccess prof catalog sample) = _
      rw [recommendFieldScore, weakFieldScan, hv0, Option.map_some', Option.map_some']
    rw [hget]
    exact ⟨rfl, by simp [recommendSuccess]⟩

/-- A profile with empty progress maps and the single field score
`"0" ↦ 5`. -/
def plainProfile : UserProfileData where
  acm_problems_status := { problems := none, contest_problems := none }
  oi_problems_status := { problems := none, contest_problems := none }
  field_score := [("0", 5)]

/-- Witness for C6: the concrete profile `plainProfile` has the key "0",
and the view produces a success (non-404) response for it. -/
theorem recommend_error_kinds_witness :
    (aiRecommendGet (some plainProfile) [] (fun l k => l.take k) 5).isSome = true
    ∧ aiRecommendGet (some plainProfile) [] (fun l k => l.take k) 5
        ≠ some RecommendResponse.notFound :=
  (recommend_error_kinds [] (fun l k => l.take k) 5).2 plainProfile (by decide)

/-- Membership in the unresolved pool unpacks to the three queryset
conditions. -/
lemma mem_unresolvedPool (catalog : List Problem) (wf : String) (solved : List String)
    (p : Problem) (hp : p ∈ unresolvedPool catalog wf solved) :
    p ∈ catalog ∧ p.field = wf ∧ p.visible = true ∧ p._id ∉ solved := by
  rw [unresolvedPool] at hp
  have h2 := List.mem_filter.mp hp
  have h1 := List.mem_filter.mp h2.1
  refine ⟨h1.1, ?_, ?_, ?_⟩
  · have := h1.2
    simp only [Bool.and_eq_true, beq_iff_eq] at this
    exact this.1
  · have := h1.2
    simp only [Bool.and_eq_true] at this
    exact this.2
  · have := h2.2
    simp only [Bool.not_eq_true'] at this
    simp at this
    exact this

/-- From a success response, every recommended problem is in the
unresolved pool of the weak field. -/
lemma picked_mem_pool (sample : List Problem → Nat → List Problem)
    (hs : SamplerSpec sample) (prof : UserProfileData) (catalog : List Problem)
    (veryHigh : Int) (fsOut : List (String × Int)) (picked : List Problem)
    (hget : aiRecommendGet (some prof) catalog sample veryHigh
      = some (RecommendResponse.success fsOut picked))
    (p : Problem) (hp : p ∈ picked) :
    ∃ st : ScanState,
      recommendFieldScore prof.field_score (scoreCap veryHigh) = some st
      ∧ p ∈ unresolvedPool catalog st.weakField (getUserSolvedProblems prof) := by
  obtain ⟨st, hst, _, hpicked⟩ :=
    aiRecommendGet_success_inv prof catalog sample veryHigh fsOut picked hget
  refine ⟨st, hst, ?_⟩
  rw [hpicked] at hp
  have hsub := (hs (unresolvedPool catalog st.weakField (getUserSolvedProblems prof))
    (min 3 (unresolvedPool catalog st.weakField (getUserSolvedProblems prof)).length)
    (min_le_right _ _)).2
  exact hsub.subset hp

/-- C7: a problem whose `_id` is in the solved-id list (an id the user's
global ACM progress map marks ACCEPTED) never appears among the
recommended problems of a success response. -/
theorem recommend_excludes_solved (sample : List Problem → Nat → List Problem)
    (hs : SamplerSpec sample) (prof : UserProfileData) (catalog : List Problem)
    (veryHigh : Int) (fsOut : List (String × Int)) (picked : List Problem)
    (hget : aiRecommendGet (some prof) catalog sample veryHigh
      = some (RecommendResponse.success fsOut picked))
    (p : Problem) (hp : p ∈ picked) :
    p._id ∉ getUserSolvedProblems prof := by
  obtain ⟨st, _, hpool⟩ :=
    picked_mem_pool sample hs prof catalog veryHigh fsOut picked hget p hp
  exact (mem_unresolvedPool _ _ _ _ hpool).2.2.2

/-- A visible catalog problem attached to contest 1, in field "0". -/
def contestAttachedProblem : Problem where
  _id := "A"
  id := 1
  field := "0"
  visible := true
  contest_id := some 1

/-- Witness for C7: with `plainProfile` (no solved problems) and the
one-problem catalog, the recommended problem's id is not solved. -/
theorem recommend_excludes_solved_witness :
    contestAttachedProblem._id ∉ getUserSolvedProblems plainProfile :=
  recommend_excludes_solved (fun l k => l.take k) take_sampler_spec plainProfile
    [contestAttachedProblem] 5 [("0", 5), ("max_score", 100)] [contestAttachedProblem]
    (by decide) contestAttachedProblem (by decide)

/-- C8: a success response recommends exactly `min 3 |unresolved|`
problems; in particular an empty unresolved pool yields an empty
recommendation list (and, the response being a success, no error). -/
theorem recommend_sample_size (sample : List Problem → Nat → List Problem)
    (hs : SamplerSpec sample) (prof : UserProfileData) (catalog : List Problem)
    (veryHigh : Int) (st : ScanState)
    (hst : recommendFieldScore prof.field_score (scoreCap veryHigh) = some st)
    (fsOut : List (String × Int)) (picked : List Problem)
    (hget : aiRecommendGet (some prof) catalog sample veryHigh
      = some (RecommendResponse.success fsOut picked)) :
    picked.length
      = min 3 (unresolvedPool catalog st.weakField (getUserSolvedProblems prof)).length
    ∧ (unresolvedPool catalog st.weakField (getUserSolvedProblems prof) = []
        → picked = []) := by
  obtain ⟨st', hst', _, hpicked⟩ :=
    aiRecommendGet_success_inv prof catalog sample veryHigh fsOut picked hget
  have hstst : st' = st := Option.some.inj (hst' ▸ hst)
  subst hstst
  have hlen := (hs (unresolvedPool catalog st'.weakField (getUserSolvedProblems prof))
    (min 3 (unresolvedPool catalog st'.weakField (getUserSolvedProblems prof)).length)
    (min_le_right _ _)).1
  constructor
  · rw [hpicked]
    exact hlen
  · intro hempty
    rw [hpicked, hempty]
    simp only [List.length_nil, Nat.min_zero]
    have h0 := (hs [] 0 (by simp)).1
    exact List.length_eq_zero.mp h0

/-- Witness for C8: concrete one-problem pool, `min 3 1 = 1` problem
returned. -/
theorem recommend_sample_size_witness :
    List.length [contestAttachedProblem]
      = min 3 (unresolvedPool [contestAttachedProblem] "0"
          (getUserSolvedProblems plainProfile)).length
    ∧ (unresolvedPool [contestAttachedProblem] "0" (getUserSolvedProblems plainProfile) = []
        → [contestAttachedProblem] = []) :=
  recommend_sample_size (fun l k => l.take k) take_sampler_spec plainProfile
    [contestAttachedProblem] 5
    { capped := [("0", 5), ("max_score", 100)], weakField := "0", weakScore := 5 }
    (by decide) [("0", 5), ("max_score", 100)] [contestAttachedProblem] (by decide)

/-- C2, counterexample: the recommender's pool queryset has no
`contest_id` filter, so a visible weak-field problem attached to a contest
is recommended: with `plainProfile` (weak field "0") and a catalog whose
only problem is attached to contest 1, the success payload recommends
exactly that problem. -/
theorem recommend_pool_contest_cex :
    aiRecommendGet (some plainProfile) [contestAttachedProblem] (fun l k => l.take k) 5
      = some (RecommendResponse.success [("0", 5), ("max_score", 100)]
          [contestAttachedProblem])
    ∧ contestAttachedProblem.contest_id ≠ none
    ∧ contestAttachedProblem
        ∈ unresolvedPool [contestAttachedProblem] "0" (getUserSolvedProblems plainProfile) := by
  refine ⟨by decide, by decide, by decide⟩

/-- C2, amended: every problem in the candidate pool (hence every
recommended problem) is visible and belongs to the weak field and is
unsolved — but contest-attached problems are NOT excluded (the queryset
carries no contest filter). -/
theorem recommend_pool_visible_weak_field (sample : List Problem → Nat → List Problem)
    (hs : SamplerSpec sample) (prof : UserProfileData) (catalog : List Problem)
    (veryHigh : Int) (fsOut : List (String × Int)) (picked : List Problem)
    (hget : aiRecommendGet (some prof) catalog sample veryHigh
      = some (RecommendResponse.success fsOut picked))
    (p : Problem) (hp : p ∈ picked) :
    ∃ st : ScanState,
      recommendFieldScore prof.field_score (scoreCap veryHigh) = some st
      ∧ p.visible = true ∧ p.field = st.weakField ∧ p ∈ catalog := by
  obtain ⟨st, hst, hpool⟩ :=
    picked_mem_pool sample hs prof catalog veryHigh fsOut picked hget p hp
  have h := mem_unresolvedPool _ _ _ _ hpool
  exact ⟨st, hst, h.2.2.1, h.2.1, h.1⟩

/-- Witness for C2's amended theorem at the concrete input of the
counterexample. -/
theorem recommend_pool_visible_weak_field_witness :
    ∃ st : ScanState,
      recommendFieldScore plainProfile.field_score (scoreCap 5) = some st
      ∧ contestAttachedProblem.visible = true
      ∧ contestAttachedProblem.field = st.weakField
      ∧ contestAttachedProblem ∈ [contestAttachedProblem] :=
  recommend_pool_visible_weak_field (fun l k => l.take k) take_sampler_spec plainProfile
    [contestAttachedProblem] 5 [("0", 5), ("max_score", 100)] [contestAttachedProblem]
    (by decide) contestAttachedProblem (by decide)

/-- Capping preserves the key column. -/
lemma capped_keys (cap : Int) (l : List (String × Int)) :
    ((l.map (fun kv => (kv.1, min kv.2 cap))).map Prod.fst) = l.map Prod.fst := by
  rw [List.map_map]
  rfl

/-- C4: on a successful scan over a vector with distinct field keys (and
no reserved "max_score" key), the resulting capped vector maps every field
`k` of the raw vector to exactly `min raw cap`; that value is `≤ cap` and
`≤` the raw value. The raw vector `fs` is untouched — the capped scores
live in a separate output. -/
theorem capped_vector_values (fs : List (String × Int)) (cap : Int) (st : ScanState)
    (hnd : (fs.map Prod.fst).Nodup) (hmax : "max_score" ∉ fs.map Prod.fst)
    (hscan : recommendFieldScore fs cap = some st) (k : String) (v : Int)
    (hmem : (k, v) ∈ fs) :
    List.lookup k st.capped = some (min v cap) ∧ min v cap ≤ cap ∧ min v cap ≤ v := by
  refine ⟨?_, min_le_right _ _, min_le_left _ _⟩
  rw [recommendFieldScore, dictSet_of_not_mem _ _ _ hmax, weakFieldScan] at hscan
  cases hlk : List.lookup "0" (fs ++ [("max_score", cap)]) with
  | none =>
    rw [hlk] at hscan
    exact absurd hscan (by simp)
  | some v0 =>
    rw [hlk, Option.map_some'] at hscan
    have hfold := Option.some.inj hscan
    have hcap : st.capped
        = (fs ++ [("max_score", cap)]).map (fun kv => (kv.1, min kv.2 cap)) := by
      rw [← hfold, scan_capped]
      rfl
    have hnd2 : (((fs ++ [("max_score", cap)]).map
        (fun kv => (kv.1, min kv.2 cap))).map Prod.fst).Nodup := by
      rw [capped_keys, List.map_append, List.nodup_append]
      refine ⟨hnd, by simp, ?_⟩
      intro a ha hb
      simp only [List.map_cons, List.map_nil, List.mem_singleton] at hb
      exact hmax (hb ▸ ha)
    have hmem2 : (k, min v cap)
        ∈ (fs ++ [("max_score", cap)]).map (fun kv => (kv.1, min kv.2 cap)) :=
      List.mem_map_of_mem _ (List.mem_append_left _ hmem)
    rw [hcap]
    exact lookup_of_mem_nodup _ _ _ hnd2 hmem2

/-- Witness for C4 at the spec's own scenario: raw score 150 for field "0"
under cap 100 is capped to `min 150 100 = 100`. -/
theorem capped_vector_values_witness :
    List.lookup "0" (ScanState.capped
        { capped := [("0", 100), ("1", 40), ("max_score", 100)],
          weakField := "1", weakScore := 40 })
      = some (min 150 100)
    ∧ min (150 : Int) 100 ≤ 100 ∧ min (150 : Int) 100 ≤ 150 :=
  capped_vector_values [("0", 150), ("1", 40)] 100
    { capped := [("0", 100), ("1", 40), ("max_score", 100)],
      weakField := "1", weakScore := 40 }
    (by decide) (by decide) (by decide) "0" 150 (by decide)

/-- A scan step either keeps the candidate or moves it to the processed
entry's key. -/
lemma scanStep_weakField_cases (cap : Int) (st : ScanState) (kv : String × Int) :
    (scanStep cap st kv).weakField = st.weakField
      ∨ (scanStep cap st kv).weakField = kv.1 := by
  rw [scanStep]
  split
  · right
    rfl
  · left
    rfl

/-- C10: the pseudo-field "max_score" is inserted (at the cap value) into
the dict the scan iterates over, yet is never selected as the weak field —
its capped value is the cap itself and an update needs a strictly smaller
score — and it remains present, at the cap, in the capped `field_score`
the response returns. -/
theorem max_score_pseudo_field (fs : List (String × Int)) (veryHigh : Int) (st : ScanState)
    (hmax : "max_score" ∉ fs.map Prod.fst)
    (hscan : recommendFieldScore fs (scoreCap veryHigh) = some st) :
    ("max_score", scoreCap veryHigh) ∈ dictSet fs "max_score" (scoreCap veryHigh)
    ∧ st.weakField ≠ "max_score"
    ∧ List.lookup "max_score" st.capped = some (scoreCap veryHigh) := by
  rw [recommendFieldScore, dictSet_of_not_mem _ _ _ hmax, weakFieldScan] at hscan
  refine ⟨?_, ?_, ?_⟩
  · rw [dictSet_of_not_mem _ _ _ hmax]
    exact List.mem_append_right _ (by simp)
  · cases hlk : List.lookup "0" (fs ++ [("max_score", scoreCap veryHigh)]) with
    | none =>
      rw [hlk] at hscan
      exact absurd hscan (by simp)
    | some v0 =>
      rw [hlk, Option.map_some'] at hscan
      have hfold := Option.some.inj hscan
      cases fs with
      | nil =>
        simp [List.lookup] at hlk
      | cons e fs' =>
        simp only [List.map_cons, List.mem_cons, not_or] at hmax
        have hsplit : ((e :: fs') ++ [("max_score", scoreCap veryHigh)]).foldl
              (scanStep (scoreCap veryHigh))
              { capped := [], weakField := "0", weakScore := v0 }
            = scanStep (scoreCap veryHigh)
                (fs'.foldl (scanStep (scoreCap veryHigh))
                  (scanStep (scoreCap veryHigh)
                    { capped := [], weakField := "0", weakScore := v0 } e))
                ("max_score", scoreCap veryHigh) := by
          rw [List.cons_append, List.foldl_cons, List.foldl_append]
          rfl
        have hws1 : (scanStep (scoreCap veryHigh)
            { capped := [], weakField := "0", weakScore := v0 } e).weakScore
            ≤ scoreCap veryHigh :=
          le_trans (scanStep_weakScore_le _ _ _) (min_le_right _ _)
        have hwsR : (fs'.foldl (scanStep (scoreCap veryHigh))
            (scanStep (scoreCap veryHigh)
              { capped := [], weakField := "0", weakScore := v0 } e)).weakScore
            ≤ scoreCap veryHigh :=
          le_trans (scan_weakScore_mono _ _ _) hws1
        have hfinal : (scanStep (scoreCap veryHigh)
            (fs'.foldl (scanStep (scoreCap veryHigh))
              (scanStep (scoreCap veryHigh)
                { capped := [], weakField := "0", weakScore := v0 } e))
            ("max_score", scoreCap veryHigh)).weakField
            = (fs'.foldl (scanStep (scoreCap veryHigh))
              (scanStep (scoreCap veryHigh)
                { capped := [], weakField := "0", weakScore := v0 } e)).weakField := by
          rw [scanStep]
          split
          · rename_i hlt
            exact absurd (lt_of_le_of_lt hwsR (by simpa using hlt)) (lt_irrefl _)
          · rfl
        rw [← hfold, hsplit, hfinal]
        rcases scan_weakField_mem (scoreCap veryHigh) fs'
            (scanStep (scoreCap veryHigh)
              { capped := [], weakField := "0", weakScore := v0 } e) with h | h
        · rw [h]
          rcases scanStep_weakField_cases (scoreCap veryHigh)
              { capped := [], weakField := "0", weakScore := v0 } e with h2 | h2
          · rw [h2]
            show ("0" : String) ≠ "max_score"
            decide
          · rw [h2]
            intro hcon
            exact hmax.1 hcon.symm
        · intro hcon
          exact hmax.2 (hcon ▸ h)
  · cases hlk : List.lookup "0" (fs ++ [("max_score", scoreCap veryHigh)]) with
    | none =>
      rw [hlk] at hscan
      exact absurd hscan (by simp)
    | some v0 =>
      rw [hlk, Option.map_some'] at hscan
      have hfold := Option.some.inj hscan
      have hcap : st.capped
          = (fs ++ [("max_score", scoreCap veryHigh)]).map
            (fun kv => (kv.1, min kv.2 (scoreCap veryHigh))) := by
        rw [← hfold, scan_capped]
        rfl
      rw [hcap, List.map_append, lookup_append_left_none _ _ _ (by rw [capped_keys]; exact hmax)]
      simp [List.lookup]

/-- Witness for C10: raw vector `"0" ↦ 150` under `veryHigh = 5` (cap
100). -/
theorem max_score_pseudo_field_witness :
    ("max_score", scoreCap 5) ∈ dictSet [("0", 150)] "max_score" (scoreCap 5)
    ∧ ScanState.weakField
        { capped := [("0", 100), ("max_score", 100)], weakField := "0", weakScore := 100 }
        ≠ "max_score"
    ∧ List.lookup "max_score"
        (ScanState.capped
          { capped := [("0", 100), ("max_score", 100)], weakField := "0", weakScore := 100 })
      = some (scoreCap 5) :=
  max_score_pseudo_field [("0", 150)] 5
    { capped := [("0", 100), ("max_score", 100)], weakField := "0", weakScore := 100 }
    (by decide) (by decide)

example :
    ProblemAPI.addProblemStatus true
      { acm_problems_status := { problems := some [("3", ⟨0, "P3"⟩)], contest_problems := none },
        oi_problems_status := { problems := none, contest_problems := none },
        field_score := [] }
      (QuerysetValues.single { id := 3, rule_type := RuleType.ACM, my_status := none })
    = QuerysetValues.single { id := 3, rule_type := RuleType.ACM, my_status := some 0 } := by
  decide

example :
    aiRecommendGet
      (some { acm_problems_status := { problems := none, contest_problems := none },
              oi_problems_status := { problems := none, contest_problems := none },
              field_score := [("0", 5), ("1", 9)] })
      [{ _id := "A", id := 1, field := "0", visible := true, contest_id := some 1 }]
      (fun l k => l.take k) 5
    = some (RecommendResponse.success [("0", 5), ("1", 9), ("max_score", 100)]
        [{ _id := "A", id := 1, field := "0", visible := true, contest_id := some 1 }]) := by
  decide
